import Mathlib

/-!
Verification development for `scripts/process_extracted_map.py`:
a shallow embedding of the color-segmentation-to-georeferenced-polygon
pipeline (color classification, morphological mask cleaning, contour
vectorization, georeferencing, category merge), together with theorems
settling the specified properties.

Modelling conventions:
* 8-bit channel values and pixel coordinates are embedded as `Int`,
  geographic/normalized coordinates as `Rat` (exact arithmetic; the
  Python floats are modelled exactly by rationals).
* External library primitives (cv2 contour tracing and polygon
  approximation, shapely validity/union/simplify) are taken as explicit
  function parameters; primitives with a simple documented arithmetic
  meaning (cv2 inRange, contourArea, morphology) are modelled concretely.
-/

namespace ProcessExtractedMap

/-- An RGB pixel, one integer per channel (8-bit values are 0..255). -/
structure RGB where
  r : Int
  g : Int
  b : Int
deriving DecidableEq, Repr

/-- `detect_broadband_regions`, color-range step (source lines 56-62):
`lower = np.maximum(0, color - tolerance)` per channel. -/
def lowerBound (ref : RGB) (tolerance : Int) : RGB :=
  ⟨max 0 (ref.r - tolerance), max 0 (ref.g - tolerance), max 0 (ref.b - tolerance)⟩

/-- `upper = np.minimum(255, color + tolerance)` per channel. -/
def upperBound (ref : RGB) (tolerance : Int) : RGB :=
  ⟨min 255 (ref.r + tolerance), min 255 (ref.g + tolerance), min 255 (ref.b + tolerance)⟩

/-- `cv2.inRange(image, lower, upper)` per-pixel predicate: the pixel is
marked iff every channel lies between the corresponding bounds. -/
def inRangePix (ref : RGB) (tolerance : Int) (pix : RGB) : Bool :=
  decide ((lowerBound ref tolerance).r ≤ pix.r ∧ pix.r ≤ (upperBound ref tolerance).r) &&
  decide ((lowerBound ref tolerance).g ≤ pix.g ∧ pix.g ≤ (upperBound ref tolerance).g) &&
  decide ((lowerBound ref tolerance).b ≤ pix.b ∧ pix.b ≤ (upperBound ref tolerance).b)

/-- The raster image: a grid (list of rows) of RGB pixels. -/
abbrev RasterImage : Type := List (List RGB)

/-- A binary mask: a grid (list of rows) of booleans. -/
abbrev Mask : Type := List (List Bool)

/-- `mask = cv2.inRange(image, lower, upper)`: the classifier mask. -/
def inRangeMask (image : RasterImage) (ref : RGB) (tolerance : Int) : Mask :=
  image.map (fun row => row.map (inRangePix ref tolerance))

end ProcessExtractedMap

namespace ProcessExtractedMap

/-! ### Morphological mask cleaning (source lines 64-78)

cv2 `morphologyEx` with a 5x5 all-ones kernel anchored at its center.
cv2 default border handling: `dilate` treats pixels outside the image as
unset, `erode` treats them as set (`morphologyDefaultBorderValue`). -/

/-- Pixel lookup with an explicit value for out-of-range coordinates. -/
def getPix (m : Mask) (outside : Bool) (i j : Int) : Bool :=
  if 0 ≤ i ∧ 0 ≤ j then ((m.getD i.toNat []).getD j.toNat outside) else outside

/-- Kernel offsets of the 5x5 structuring element. -/
def offsets : List Int := [-2, -1, 0, 1, 2]

/-- Build an h x w boolean grid from a pixel function. -/
def mapGrid (h w : Nat) (f : Int → Int → Bool) : Mask :=
  (List.range h).map (fun i => (List.range w).map (fun j => f i j))

/-- Number of rows of a mask. -/
def maskH (m : Mask) : Nat := m.length

/-- Number of columns of a mask (rows are uniform for numpy arrays). -/
def maskW (m : Mask) : Nat := (m.headD []).length

/-- `cv2.dilate` with the 5x5 kernel (outside pixels count as unset). -/
def dilate (m : Mask) : Mask :=
  mapGrid (maskH m) (maskW m) (fun i j =>
    offsets.any (fun di => offsets.any (fun dj => getPix m false (i + di) (j + dj))))

/-- `cv2.erode` with the 5x5 kernel (outside pixels count as set). -/
def erode (m : Mask) : Mask :=
  mapGrid (maskH m) (maskW m) (fun i j =>
    offsets.all (fun di => offsets.all (fun dj => getPix m true (i + di) (j + dj))))

/-- `cv2.morphologyEx(mask, cv2.MORPH_CLOSE, kernel)`: dilate then erode. -/
def morphClose (m : Mask) : Mask := erode (dilate m)

/-- `cv2.morphologyEx(mask, cv2.MORPH_OPEN, kernel)`: erode then dilate. -/
def morphOpen (m : Mask) : Mask := dilate (erode m)

/-- One propagation step of background reachability: a background pixel
becomes reached when a 4-neighbour is reached. -/
def bgStep (m reach : Mask) : Mask :=
  mapGrid (maskH m) (maskW m) (fun i j =>
    getPix reach false i j ||
      (!getPix m false i j &&
        (getPix reach false (i - 1) j || getPix reach false (i + 1) j ||
         getPix reach false i (j - 1) || getPix reach false i (j + 1))))

/-- Background pixels on the image border (reachability seed). -/
def bgInit (m : Mask) : Mask :=
  mapGrid (maskH m) (maskW m) (fun i j =>
    !getPix m false i j &&
      decide (i = 0 ∨ i = (maskH m : Int) - 1 ∨ j = 0 ∨ j = (maskW m : Int) - 1))

/-- Background pixels 4-connected to the image border (the propagation
step is iterated to a fixed point; h*w steps always suffice). -/
def bgReach (m : Mask) : Mask :=
  (bgStep m)^[maskH m * maskW m] (bgInit m)

/-- The hole-filling step (source lines 73-76):
`cv2.findContours(..., cv2.RETR_EXTERNAL, ...)` followed by
`cv2.drawContours(mask_filled, contours, -1, 255, -1)`.
Modelled as: set every pixel except the background pixels that are
4-connected to the image border (i.e. fill every enclosed hole). -/
def fillHoles (m : Mask) : Mask :=
  mapGrid (maskH m) (maskW m) (fun i j =>
    getPix m false i j || !getPix (bgReach m) false i j)

/-- The full mask cleaner of `detect_broadband_regions` (lines 64-78):
morphological closing, then opening, then hole filling. -/
def cleanMask (m : Mask) : Mask := fillHoles (morphOpen (morphClose m))

/-- A category entry of the color configuration: name, reference color
(`info['color']`) and display color (`info['hex']`). -/
structure CategorySpec where
  name : String
  color : RGB
  hex : String
deriving DecidableEq, Repr

/-- `detect_broadband_regions(image, color_config, tolerance)`
(source lines 47-114, computational content): one cleaned
classification mask per configured category. -/
def detect_broadband_regions (image : RasterImage) (color_config : List CategorySpec)
    (tolerance : Int) : List (String × Mask) :=
  color_config.map (fun info =>
    (info.name, cleanMask (inRangeMask image info.color tolerance)))

end ProcessExtractedMap

namespace ProcessExtractedMap

/-! ### Contour vectorization (source lines 116-173) -/

/-- A traced contour: integer pixel coordinates (x, y). -/
abbrev Contour : Type := List (Int × Int)

/-- Cross product term used by the shoelace formula. -/
def cross (p q : Rat × Rat) : Rat := p.1 * q.2 - q.1 * p.2

/-- Cyclic shoelace sum, accumulating successive cross terms and closing
back to the first vertex. -/
def shoelaceAux (first : Rat × Rat) : List (Rat × Rat) → Rat
  | [] => 0
  | [p] => cross p first
  | p :: q :: rest => cross p q + shoelaceAux first (q :: rest)

/-- Signed double area of a closed polygon (shoelace formula). -/
def shoelace : List (Rat × Rat) → Rat
  | [] => 0
  | p :: rest => shoelaceAux p (p :: rest)

/-- Polygon area: `shapely` `polygon.area`, i.e. |shoelace| / 2. -/
def polyArea (l : List (Rat × Rat)) : Rat := |shoelace l| / 2

/-- `cv2.contourArea(contour)`: Green-formula area of the contour
polygon, |shoelace| / 2 over the integer contour points. -/
def contourArea (c : Contour) : Rat :=
  polyArea (c.map (fun p => ((p.1 : Rat), (p.2 : Rat))))

/-- `mask_category_to_hex(category)` (source lines 162-173): the
hard-coded category-to-display-color table with white default. -/
def mask_category_to_hex (category : String) : String :=
  if category = "0-9 Mbps" then "#FF0000"
  else if category = "10-24 Mbps" then "#FFA500"
  else if category = "25-49 Mbps" then "#FFFF00"
  else if category = "50-100 Mbps" then "#90EE90"
  else if category = "100+ Mbps" then "#008000"
  else "#FFFFFF"

/-- A shapely polygon: exterior ring plus interior rings (holes). -/
structure ShapelyPolygon where
  exterior : List (Rat × Rat)
  interiors : List (List (Rat × Rat))
deriving DecidableEq, Repr

/-- A pipeline record `{'geometry': ..., 'speed_category': ..., 'color': ...}`. -/
structure PolyRec where
  geometry : ShapelyPolygon
  speed_category : String
  color : String
deriving DecidableEq, Repr

/-- Loop body of `masks_to_polygons` for one traced contour
(source lines 130-155). `arcLength` stands for `cv2.arcLength(contour,
True)`, `approxPolyDP c eps` for `cv2.approxPolyDP(contour, eps, True)`
(flattened to a point list) and `is_valid` for shapely `polygon.is_valid`. -/
def processContour (arcLength : Contour → Rat) (approxPolyDP : Contour → Rat → Contour)
    (is_valid : List (Rat × Rat) → Bool) (width height : Nat) (category : String)
    (contour : Contour) : Option PolyRec :=
  if contourArea contour < 100 then none
  else
    let epsilon : Rat := (2 / 1000) * arcLength contour
    let approx := approxPolyDP contour epsilon
    if 3 ≤ approx.length then
      let coords := approx.map (fun p => ((p.1 : Rat) / (width : Rat), (p.2 : Rat) / (height : Rat)))
      if is_valid coords ∧ 0 < polyArea coords then
        some ⟨⟨coords, []⟩, category, mask_category_to_hex category⟩
      else none
    else none

/-- `masks_to_polygons(masks, image_shape)` (source lines 116-160).
`findContours` stands for `cv2.findContours(mask, cv2.RETR_EXTERNAL,
cv2.CHAIN_APPROX_SIMPLE)`. -/
def masks_to_polygons (findContours : Mask → List Contour) (arcLength : Contour → Rat)
    (approxPolyDP : Contour → Rat → Contour) (is_valid : List (Rat × Rat) → Bool)
    (masks : List (String × Mask)) (width height : Nat) : List PolyRec :=
  masks.flatMap (fun cm =>
    (findContours cm.2).filterMap (processContour arcLength approxPolyDP is_valid width height cm.1))

end ProcessExtractedMap

namespace ProcessExtractedMap

/-! ### Georeferencing (source lines 175-200) -/

/-- The geographic bounding box (degrees). -/
structure BBox where
  west : Rat
  east : Rat
  south : Rat
  north : Rat
deriving DecidableEq, Repr

/-- `CLEVELAND_BBOX` (source lines 16-21). -/
def CLEVELAND_BBOX : BBox :=
  ⟨-8182/100, -8155/100, 4139/100, 4160/100⟩

/-- The per-vertex affine transform of `georeference_polygons`
(source lines 188-189). -/
def georefPoint (bbox : BBox) (p : Rat × Rat) : Rat × Rat :=
  (bbox.west + p.1 * (bbox.east - bbox.west),
   bbox.north - p.2 * (bbox.north - bbox.south))

/-- `georeference_polygons(polygons, bbox)` (source lines 175-200): maps
each polygon's exterior ring through the affine transform and rebuilds
the polygon from the transformed exterior alone (`Polygon(geo_coords)`),
keeping category and color. -/
def georeference_polygons (polygons : List PolyRec) (bbox : BBox) : List PolyRec :=
  polygons.map (fun p =>
    ⟨⟨p.geometry.exterior.map (georefPoint bbox), []⟩, p.speed_category, p.color⟩)

/-! ### Category merge (source lines 202-243) -/

/-- A shapely geometry as dispatched on by `create_geojson`. -/
inductive Geometry where
  | polygon : ShapelyPolygon → Geometry
  | multiPolygon : List ShapelyPolygon → Geometry
deriving DecidableEq, Repr

/-- A merged output record of `create_geojson`. -/
structure GeoRec where
  geometry : Geometry
  speed_category : String
  color : String
deriving DecidableEq, Repr

/-- `create_geojson(polygons, output_path)` (source lines 202-243,
computational content). `unary_union` stands for shapely
`unary_union`, `simplify` for geopandas `.simplify`. Python's
`set(gdf['speed_category'])` is modelled as the deduplicated category
list (iteration order of the Python set is unspecified). -/
def create_geojson (unary_union : List ShapelyPolygon → Geometry)
    (simplify : Geometry → Rat → Geometry) (polygons : List PolyRec) : List GeoRec :=
  let categories := (polygons.map (fun p => p.speed_category)).dedup
  let merged := categories.flatMap (fun category =>
    let category_polys := polygons.filter (fun p => p.speed_category == category)
    if 0 < category_polys.length then
      match unary_union (category_polys.map (fun p => p.geometry)) with
      | Geometry.polygon m =>
          [({ geometry := Geometry.polygon m, speed_category := category,
              color := mask_category_to_hex category } : GeoRec)]
      | Geometry.multiPolygon ps =>
          ps.map (fun poly =>
            ({ geometry := Geometry.polygon poly, speed_category := category,
               color := mask_category_to_hex category } : GeoRec))
    else [])
  merged.map (fun g =>
    ({ geometry := simplify g.geometry (1/10000), speed_category := g.speed_category,
       color := g.color } : GeoRec))

/-- The default color configuration of `main` (source lines 289-295). -/
def default_color_config : List CategorySpec :=
  [⟨"0-9 Mbps", ⟨204, 0, 0⟩, "#CC0000"⟩,
   ⟨"10-24 Mbps", ⟨255, 127, 0⟩, "#FF7F00"⟩,
   ⟨"25-49 Mbps", ⟨255, 255, 0⟩, "#FFFF00"⟩,
   ⟨"50-100 Mbps", ⟨127, 201, 127⟩, "#7FC97F"⟩,
   ⟨"100+ Mbps", ⟨0, 114, 0⟩, "#007200"⟩]

/-- The processing tail of `main` (source lines 316-329): detect masks,
vectorize; if no polygons were detected, print and return early
producing no feature collection (`none`); otherwise georeference with
`CLEVELAND_BBOX` and build the merged feature collection. -/
def main_pipeline (findContours : Mask → List Contour) (arcLength : Contour → Rat)
    (approxPolyDP : Contour → Rat → Contour) (is_valid : List (Rat × Rat) → Bool)
    (unary_union : List ShapelyPolygon → Geometry) (simplify : Geometry → Rat → Geometry)
    (image : RasterImage) (color_config : List CategorySpec) (tolerance : Int) :
    Option (List GeoRec) :=
  let masks := detect_broadband_regions image color_config tolerance
  let width := (image.headD []).length
  let height := image.length
  let polygons := masks_to_polygons findContours arcLength approxPolyDP is_valid masks width height
  if polygons.isEmpty then none
  else some (create_geojson unary_union simplify (georeference_polygons polygons CLEVELAND_BBOX))

/-- The per-category merge block of `create_geojson`. -/
def mergeBlock (unary_union : List ShapelyPolygon → Geometry) (polygons : List PolyRec)
    (category : String) : List GeoRec :=
  let category_polys := polygons.filter (fun p => p.speed_category == category)
  if 0 < category_polys.length then
    match unary_union (category_polys.map (fun p => p.geometry)) with
    | Geometry.polygon m =>
        [({ geometry := Geometry.polygon m, speed_category := category,
            color := mask_category_to_hex category } : GeoRec)]
    | Geometry.multiPolygon ps =>
        ps.map (fun poly =>
          ({ geometry := Geometry.polygon poly, speed_category := category,
             color := mask_category_to_hex category } : GeoRec))
  else []

/-! ### Concrete fixtures used by witnesses and counterexamples -/

/-- A contour tracer returning one 10x10 square contour. -/
def fcSquare : Mask → List Contour := fun _ => [[(0, 0), (10, 0), (10, 10), (0, 10)]]

/-- A perimeter function returning 40 (the square's perimeter). -/
def aLForty : Contour → Rat := fun _ => 40

/-- A polygon simplifier that keeps the contour unchanged. -/
def aPId : Contour → Rat → Contour := fun c _ => c

/-- A validity check that accepts everything. -/
def ivTrue : List (Rat × Rat) → Bool := fun _ => true

/-- The record emitted for the 10x10 square in a 10x10 image. -/
def recSquare : PolyRec :=
  ⟨⟨[(0, 0), (1, 0), (1, 1), (0, 1)], []⟩, "0-9 Mbps", "#FF0000"⟩

/-- A union operator returning a fixed two-part multi-polygon (models
the union of two disjoint same-category regions). -/
def uuTwoParts : List ShapelyPolygon → Geometry :=
  fun _ => Geometry.multiPolygon [⟨[(0, 0)], []⟩, ⟨[(2, 2)], []⟩]

/-- A geometry simplifier that keeps geometries unchanged. -/
def spKeep : Geometry → Rat → Geometry := fun g _ => g

/-- Two same-category input records. -/
def twoRegionPolys : List PolyRec :=
  [⟨⟨[(0, 0)], []⟩, "X", "#FFFFFF"⟩, ⟨⟨[(2, 2)], []⟩, "X", "#FFFFFF"⟩]

/-- A contour tracer finding no contours (an empty mask has none). -/
def fcNone : Mask → List Contour := fun _ => []

/-- A union operator returning a fixed empty polygon. -/
def uuEmpty : List ShapelyPolygon → Geometry := fun _ => Geometry.polygon ⟨[], []⟩

end ProcessExtractedMap

namespace ProcessExtractedMap

/-! ### Helper lemmas -/

/-- Cross-difference identity on a two-point set. -/
theorem cross_pair (A B p q : Rat × Rat) (hp : p = A ∨ p = B) (hq : q = A ∨ q = B) :
    cross p q = cross A q - cross A p := by
  rcases hp with rfl | rfl <;> rcases hq with rfl | rfl <;> simp only [cross] <;> ring

/-- The shoelace accumulator telescopes when all points lie in a
two-point set. -/
theorem shoelaceAux_two (A B first : Rat × Rat) (hf : first = A ∨ first = B) :
    ∀ (p : Rat × Rat) (rest : List (Rat × Rat)), (p = A ∨ p = B) →
      (∀ x ∈ rest, x = A ∨ x = B) →
      shoelaceAux first (p :: rest) = cross A first - cross A p := by
  intro p rest
  induction rest generalizing p with
  | nil =>
      intro hp _
      show cross p first = cross A first - cross A p
      rw [cross_pair A B p first hp hf]
  | cons q rest ih =>
      intro hp hrest
      show cross p q + shoelaceAux first (q :: rest) = cross A first - cross A p
      rw [ih q (hrest q (by simp)) (fun x hx => hrest x (by simp [hx])),
        cross_pair A B p q hp (hrest q (by simp))]
      ring

/-- A closed polygon whose vertices take at most two values has zero
shoelace sum. -/
theorem shoelace_eq_zero_of_two (A B : Rat × Rat) (l : List (Rat × Rat))
    (h : ∀ x ∈ l, x = A ∨ x = B) : shoelace l = 0 := by
  cases l with
  | nil => rfl
  | cons p rest =>
      have hp := h p (by simp)
      show shoelaceAux p (p :: rest) = 0
      rw [shoelaceAux_two A B p hp p rest hp (fun x hx => h x (by simp [hx]))]
      ring

/-- A polygon with nonzero shoelace sum has three pairwise distinct
vertices. -/
theorem exists_three_distinct_of_shoelace_ne_zero (l : List (Rat × Rat))
    (h : shoelace l ≠ 0) :
    ∃ a ∈ l, ∃ b ∈ l, ∃ c ∈ l, a ≠ b ∧ a ≠ c ∧ b ≠ c := by
  cases l with
  | nil => exact absurd rfl h
  | cons p rest =>
      by_contra hno
      push_neg at hno
      apply h
      by_cases hB : ∃ b ∈ p :: rest, b ≠ p
      · obtain ⟨B, hBmem, hBne⟩ := hB
        apply shoelace_eq_zero_of_two p B
        intro x hx
        by_cases hxp : x = p
        · exact Or.inl hxp
        · exact Or.inr ((hno p (by simp) B hBmem x hx hBne.symm (Ne.symm hxp)).symm)
      · push_neg at hB
        apply shoelace_eq_zero_of_two p p
        intro x hx
        exact Or.inl (hB x hx)

/-- Unpacking of a successful `processContour` run: the emitted record
is built from the simplified contour with tolerance 0.002 times the
perimeter, normalized by width and height, and passed every filter. -/
theorem processContour_some (arcLength : Contour → Rat)
    (approxPolyDP : Contour → Rat → Contour) (is_valid : List (Rat × Rat) → Bool)
    (width height : Nat) (category : String) (c : Contour) (p : PolyRec)
    (hp : processContour arcLength approxPolyDP is_valid width height category c = some p) :
    p.geometry.exterior = (approxPolyDP c ((2 / 1000) * arcLength c)).map
        (fun q => ((q.1 : Rat) / (width : Rat), (q.2 : Rat) / (height : Rat)))
    ∧ 3 ≤ p.geometry.exterior.length
    ∧ is_valid p.geometry.exterior = true
    ∧ 0 < polyArea p.geometry.exterior
    ∧ p.geometry.interiors = []
    ∧ p.speed_category = category
    ∧ p.color = mask_category_to_hex category
    ∧ ¬ contourArea c < 100 := by
  rw [processContour] at hp
  split at hp
  · exact absurd hp (by simp)
  · next harea =>
      dsimp only at hp
      split at hp
      · next hlen =>
          split at hp
          · next hvalid =>
              cases hp
              refine ⟨rfl, ?_, ?_, ?_, rfl, rfl, rfl, harea⟩
              · simpa using hlen
              · exact hvalid.1
              · exact hvalid.2
          · exact absurd hp (by simp)
      · exact absurd hp (by simp)

end ProcessExtractedMap

namespace ProcessExtractedMap

/-! ### Claim theorems -/

/-- C1: for every pixel color with channels in 0..255, every reference
color and every tolerance t at least 0, the classifier marks the pixel
iff every channel differs from the reference channel by at most t; and
the classifier mask holds exactly this per-pixel predicate at every
coordinate of the image. -/
theorem classifier_marks_iff_within_tolerance (ref : RGB) (tolerance : Int) (pix : RGB)
    (htol : 0 ≤ tolerance)
    (hr : 0 ≤ pix.r ∧ pix.r ≤ 255) (hg : 0 ≤ pix.g ∧ pix.g ≤ 255)
    (hb : 0 ≤ pix.b ∧ pix.b ≤ 255) :
    (inRangePix ref tolerance pix = true ↔
      (|pix.r - ref.r| ≤ tolerance ∧ |pix.g - ref.g| ≤ tolerance ∧
        |pix.b - ref.b| ≤ tolerance))
    ∧ ∀ (image : RasterImage) (i j : Nat),
        (inRangeMask image ref tolerance)[i]?.bind (fun row => row[j]?)
          = (image[i]?.bind (fun row => row[j]?)).map
              (inRangePix ref tolerance) := by
  constructor
  · unfold inRangePix lowerBound upperBound
    simp only [Bool.and_eq_true, decide_eq_true_eq]
    rw [abs_le, abs_le, abs_le]
    omega
  · intro image i j
    rcases h : image[i]? with _ | row
    · simp [inRangeMask, List.getElem?_map, h]
    · simp [inRangeMask, List.getElem?_map, h]

/-- Witness for C1 at a concrete pixel, reference color and tolerance. -/
theorem classifier_marks_iff_within_tolerance_witness :
    inRangePix ⟨100, 100, 100⟩ 50 ⟨120, 80, 100⟩ = true :=
  ((classifier_marks_iff_within_tolerance ⟨100, 100, 100⟩ 50 ⟨120, 80, 100⟩
    (by decide) (by decide) (by decide) (by decide)).1).mpr (by decide)

/-- C2: for every bounding box with west < east and south < north and
every normalized vertex in the unit square, the georeferencer computes
exactly lon = west + x(east - west) and lat = north - y(north - south);
in particular (0,0) maps to (west, north), (1,1) to (east, south), and
the Cleveland box maps (0.5, 0.5) to (-81.685, 41.495). -/
theorem georeferencer_affine_exact (bbox : BBox) (x y : Rat)
    (_hwe : bbox.west < bbox.east) (_hsn : bbox.south < bbox.north)
    (_hx : 0 ≤ x ∧ x ≤ 1) (_hy : 0 ≤ y ∧ y ≤ 1) :
    georefPoint bbox (x, y) =
      (bbox.west + x * (bbox.east - bbox.west), bbox.north - y * (bbox.north - bbox.south))
    ∧ georefPoint bbox (0, 0) = (bbox.west, bbox.north)
    ∧ georefPoint bbox (1, 1) = (bbox.east, bbox.south)
    ∧ georefPoint CLEVELAND_BBOX (1/2, 1/2) = (-81685/1000, 41495/1000) := by
  refine ⟨rfl, ?_, ?_, ?_⟩
  · simp only [georefPoint, Prod.mk.injEq]
    constructor <;> ring
  · simp only [georefPoint, Prod.mk.injEq]
    constructor <;> ring
  · simp only [georefPoint, CLEVELAND_BBOX, Prod.mk.injEq]
    norm_num

/-- Witness for C2 at the Cleveland bounding box and center point. -/
theorem georeferencer_affine_exact_witness :
    georefPoint CLEVELAND_BBOX (1/2, 1/2) = (-81685/1000, 41495/1000) :=
  (georeferencer_affine_exact CLEVELAND_BBOX (1/2) (1/2)
    (by norm_num [CLEVELAND_BBOX]) (by norm_num [CLEVELAND_BBOX])
    (by norm_num) (by norm_num)).2.2.2

/-- C3 counterexample: with a malformed bounding box (west = 2 >= east
= 1 and south = 5 >= north = 3) the run is not rejected: the
georeferencer applies the coordinate transform to every vertex and
produces fully georeferenced output. -/
theorem georeferencer_no_rejection_cex :
    georeference_polygons
        [⟨⟨[(0, 0), (1, 0), (1, 1)], []⟩, "X", "#FFFFFF"⟩] ⟨2, 1, 5, 3⟩
      = [⟨⟨[(2, 3), (1, 3), (1, 5)], []⟩, "X", "#FFFFFF"⟩] := by
  simp only [georeference_polygons, georefPoint, List.map_cons, List.map_nil]
  norm_num

/-- C3 amended: the code performs no bounding-box validation; for every
bounding box, including malformed ones (west >= east or south >= north),
`georeference_polygons` applies the affine transform to every vertex of
every polygon and returns the fully georeferenced list, never rejecting
the run. -/
theorem georeferencer_no_rejection (polygons : List PolyRec) (bbox : BBox)
    (_hmal : bbox.east ≤ bbox.west ∨ bbox.north ≤ bbox.south) :
    georeference_polygons polygons bbox =
      polygons.map (fun p =>
        ({ geometry := ⟨p.geometry.exterior.map (georefPoint bbox), []⟩,
           speed_category := p.speed_category, color := p.color } : PolyRec)) :=
  rfl

/-- Witness for the amended C3 at a malformed bounding box. -/
theorem georeferencer_no_rejection_witness :
    georeference_polygons [⟨⟨[(0, 0), (1, 0), (1, 1)], []⟩, "X", "#FFFFFF"⟩] ⟨2, 1, 5, 3⟩
      = [(⟨⟨[(0, 0), (1, 0), (1, 1)], []⟩, "X", "#FFFFFF"⟩ : PolyRec)].map (fun p =>
          ({ geometry := ⟨p.geometry.exterior.map (georefPoint ⟨2, 1, 5, 3⟩), []⟩,
             speed_category := p.speed_category, color := p.color } : PolyRec)) :=
  georeferencer_no_rejection _ _ (Or.inl (by norm_num))

/-- C10: the georeferencer transforms only the exterior ring of each
polygon; interior rings of the input are discarded, so every output
polygon is hole-free and its exterior is the transformed input exterior. -/
theorem georeferencer_drops_interiors (polygons : List PolyRec) (bbox : BBox) (q : PolyRec)
    (hq : q ∈ georeference_polygons polygons bbox) :
    q.geometry.interiors = [] ∧
      ∃ p ∈ polygons,
        q = ⟨⟨p.geometry.exterior.map (georefPoint bbox), []⟩, p.speed_category, p.color⟩ := by
  rw [georeference_polygons, List.mem_map] at hq
  obtain ⟨p, hp, rfl⟩ := hq
  exact ⟨rfl, p, hp, rfl⟩

/-- Witness for C10: an input polygon carrying an interior ring comes
out hole-free. -/
theorem georeferencer_drops_interiors_witness :
    (⟨⟨[(0, 1)], []⟩, "X", "#FFFFFF"⟩ : PolyRec).geometry.interiors = [] ∧
      ∃ p ∈ [(⟨⟨[(0, 0)], [[(0, 0), (1, 0), (0, 1)]]⟩, "X", "#FFFFFF"⟩ : PolyRec)],
        (⟨⟨[(0, 1)], []⟩, "X", "#FFFFFF"⟩ : PolyRec)
          = ⟨⟨p.geometry.exterior.map (georefPoint ⟨0, 1, 0, 1⟩), []⟩,
              p.speed_category, p.color⟩ :=
  georeferencer_drops_interiors
    [⟨⟨[(0, 0)], [[(0, 0), (1, 0), (0, 1)]]⟩, "X", "#FFFFFF"⟩] ⟨0, 1, 0, 1⟩
    ⟨⟨[(0, 1)], []⟩, "X", "#FFFFFF"⟩
    (by simp only [georeference_polygons, georefPoint, List.map_cons, List.map_nil,
          List.mem_singleton]
        norm_num)

end ProcessExtractedMap

namespace ProcessExtractedMap


/-- C4: every polygon emitted by the vectorizer has at least three
pairwise distinct vertices and strictly positive enclosed area. -/
theorem vectorizer_emits_valid_polygons (fc : Mask → List Contour) (aL : Contour → Rat)
    (aP : Contour → Rat → Contour) (iv : List (Rat × Rat) → Bool)
    (masks : List (String × Mask)) (w h : Nat) (p : PolyRec)
    (hp : p ∈ masks_to_polygons fc aL aP iv masks w h) :
    (∃ a ∈ p.geometry.exterior, ∃ b ∈ p.geometry.exterior, ∃ c ∈ p.geometry.exterior,
        a ≠ b ∧ a ≠ c ∧ b ≠ c)
    ∧ 0 < polyArea p.geometry.exterior := by
  rw [masks_to_polygons, List.mem_flatMap] at hp
  obtain ⟨cm, _, hp⟩ := hp
  rw [List.mem_filterMap] at hp
  obtain ⟨c, _, hsome⟩ := hp
  obtain ⟨_, _, _, harea, _⟩ := processContour_some _ _ _ _ _ _ _ _ hsome
  refine ⟨?_, harea⟩
  apply exists_three_distinct_of_shoelace_ne_zero
  intro h0
  rw [polyArea, h0] at harea
  norm_num at harea

/-- Witness for C4 on a concrete vectorizer run emitting one square. -/
theorem vectorizer_emits_valid_polygons_witness :
    (∃ a ∈ recSquare.geometry.exterior, ∃ b ∈ recSquare.geometry.exterior,
        ∃ c ∈ recSquare.geometry.exterior, a ≠ b ∧ a ≠ c ∧ b ≠ c)
    ∧ 0 < polyArea recSquare.geometry.exterior := by
  apply vectorizer_emits_valid_polygons fcSquare aLForty aPId ivTrue
    [("0-9 Mbps", [[true]])] 10 10
  have : processContour aLForty aPId ivTrue 10 10 "0-9 Mbps" [(0, 0), (10, 0), (10, 10), (0, 10)]
      = some recSquare := by
    rw [processContour]
    rw [if_neg (by norm_num [contourArea, polyArea, shoelace, shoelaceAux, cross])]
    dsimp only [aPId]
    rw [if_pos (by norm_num)]
    have hcoords : ([(0, 0), (10, 0), (10, 10), (0, 10)] : Contour).map
        (fun q => ((q.1 : Rat) / (10 : Nat), (q.2 : Rat) / (10 : Nat)))
        = [((0 : Rat), (0 : Rat)), (1, 0), (1, 1), (0, 1)] := by
      simp only [List.map_cons, List.map_nil]
      norm_num
    rw [hcoords]
    rw [if_pos ⟨rfl, by norm_num [polyArea, shoelace, shoelaceAux, cross]⟩]
    rfl
  rw [masks_to_polygons]
  simp only [List.flatMap_cons, List.flatMap_nil, List.append_nil, fcSquare,
    List.filterMap_cons, this]
  simp

/-- C5: the vectorizer discards contours of pixel area below 100,
simplifies surviving contours with tolerance 0.002 times the contour
perimeter, and normalizes vertices by width and height, yielding
coordinates inside the unit square whenever the simplified contour's
points lie inside the image. -/
theorem vectorizer_contour_rules (aL : Contour → Rat) (aP : Contour → Rat → Contour)
    (iv : List (Rat × Rat) → Bool) (w h : Nat) (cat : String) (c : Contour)
    (hw : 0 < w) (hh : 0 < h) :
    (contourArea c < 100 → processContour aL aP iv w h cat c = none)
    ∧ (∀ p, processContour aL aP iv w h cat c = some p →
        p.geometry.exterior = (aP c ((2 / 1000) * aL c)).map
          (fun q => ((q.1 : Rat) / (w : Rat), (q.2 : Rat) / (h : Rat))))
    ∧ ((∀ q ∈ aP c ((2 / 1000) * aL c), 0 ≤ q.1 ∧ q.1 ≤ (w : Int) ∧ 0 ≤ q.2 ∧ q.2 ≤ (h : Int)) →
        ∀ p, processContour aL aP iv w h cat c = some p →
          ∀ v ∈ p.geometry.exterior, 0 ≤ v.1 ∧ v.1 ≤ 1 ∧ 0 ≤ v.2 ∧ v.2 ≤ 1) := by
  refine ⟨?_, ?_, ?_⟩
  · intro hsmall
    rw [processContour, if_pos hsmall]
  · intro p hp
    exact (processContour_some _ _ _ _ _ _ _ _ hp).1
  · intro hbound p hp v hv
    rw [(processContour_some _ _ _ _ _ _ _ _ hp).1, List.mem_map] at hv
    obtain ⟨q, hq, rfl⟩ := hv
    obtain ⟨hq1, hq2, hq3, hq4⟩ := hbound q hq
    have hw' : (0 : Rat) < (w : Rat) := by exact_mod_cast hw
    have hh' : (0 : Rat) < (h : Rat) := by exact_mod_cast hh
    refine ⟨?_, ?_, ?_, ?_⟩
    · exact div_nonneg (by exact_mod_cast hq1) (le_of_lt hw')
    · exact (div_le_one hw').mpr (by exact_mod_cast hq2)
    · exact div_nonneg (by exact_mod_cast hq3) (le_of_lt hh')
    · exact (div_le_one hh').mpr (by exact_mod_cast hq4)

/-- Witness for C5: a concrete contour of pixel area 12.5 is discarded. -/
theorem vectorizer_contour_rules_witness :
    processContour aLForty aPId ivTrue 10 10 "X" [(0, 0), (5, 0), (0, 5)] = none :=
  (vectorizer_contour_rules aLForty aPId ivTrue 10 10 "X" [(0, 0), (5, 0), (0, 5)]
      (by norm_num) (by norm_num)).1
    (by norm_num [contourArea, polyArea, shoelace, shoelaceAux, cross])

end ProcessExtractedMap

namespace ProcessExtractedMap

/-- Filtering a concatenation of per-category blocks by one category
keeps exactly that category's block, when categories are distinct and
each block is tagged with its own category. -/
theorem filter_flatMap_category (cat : String) (l : List String) (g : String → List GeoRec)
    (hnd : l.Nodup) (hmem : cat ∈ l)
    (hg : ∀ c ∈ l, ∀ r ∈ g c, r.speed_category = c) :
    (l.flatMap g).filter (fun r => r.speed_category == cat) = g cat := by
  induction l with
  | nil => simp at hmem
  | cons c l ih =>
      rw [List.flatMap_cons, List.filter_append]
      rcases List.mem_cons.mp hmem with rfl | hmem'
      · have h1 : (g cat).filter (fun r => r.speed_category == cat) = g cat :=
          List.filter_eq_self.mpr (fun r hr => by
            simp [hg cat (by simp) r hr])
        have h2 : (l.flatMap g).filter (fun r => r.speed_category == cat) = [] := by
          rw [List.filter_eq_nil_iff]
          intro r hr
          rw [List.mem_flatMap] at hr
          obtain ⟨c', hc', hr'⟩ := hr
          have hrc : r.speed_category = c' := hg c' (by simp [hc']) r hr'
          have hne : c' ≠ cat := fun h => (List.nodup_cons.mp hnd).1 (h ▸ hc')
          simp [hrc, hne]
        rw [h1, h2, List.append_nil]
      · have hc_ne : c ≠ cat := fun h => (List.nodup_cons.mp hnd).1 (h ▸ hmem')
        have h1 : (g c).filter (fun r => r.speed_category == cat) = [] := by
          rw [List.filter_eq_nil_iff]
          intro r hr
          simp [hg c (by simp) r hr, hc_ne]
        rw [h1, List.nil_append]
        exact ih (List.nodup_cons.mp hnd).2 hmem' (fun c' hc' => hg c' (by simp [hc']))


/-- `create_geojson` written through `mergeBlock`. -/
theorem create_geojson_eq (unary_union : List ShapelyPolygon → Geometry)
    (simplify : Geometry → Rat → Geometry) (polygons : List PolyRec) :
    create_geojson unary_union simplify polygons =
      (((polygons.map (fun p => p.speed_category)).dedup).flatMap
          (mergeBlock unary_union polygons)).map (fun g =>
        ({ geometry := simplify g.geometry (1/10000), speed_category := g.speed_category,
           color := g.color } : GeoRec)) := rfl

/-- Every record of a merge block is tagged with the block's category. -/
theorem mergeBlock_category (unary_union : List ShapelyPolygon → Geometry)
    (polygons : List PolyRec) (c : String) (r : GeoRec)
    (hr : r ∈ mergeBlock unary_union polygons c) : r.speed_category = c := by
  rw [mergeBlock] at hr
  split at hr
  · split at hr
    · rw [List.mem_singleton] at hr
      subst hr
      rfl
    · rw [List.mem_map] at hr
      obtain ⟨poly, _, rfl⟩ := hr
      rfl
  · simp at hr

end ProcessExtractedMap

namespace ProcessExtractedMap

/-- C6: the merger groups records by category, unions each group, emits
one record per simple polygon of the union result (a k-part
multi-polygon yields k records sharing the category tag) and simplifies
each emitted geometry with tolerance 0.0001. -/
theorem merger_expands_multipolygon (uu : List ShapelyPolygon → Geometry)
    (sp : Geometry → Rat → Geometry) (polygons : List PolyRec) (cat : String)
    (ps : List ShapelyPolygon)
    (hcat : cat ∈ polygons.map (fun p => p.speed_category))
    (huu : uu ((polygons.filter (fun p => p.speed_category == cat)).map (fun p => p.geometry))
      = Geometry.multiPolygon ps) :
    (create_geojson uu sp polygons).filter (fun g => g.speed_category == cat)
      = ps.map (fun poly =>
          ({ geometry := sp (Geometry.polygon poly) (1/10000), speed_category := cat,
             color := mask_category_to_hex cat } : GeoRec)) := by
  rw [create_geojson_eq, List.filter_map]
  have hpred : ((fun g : GeoRec => g.speed_category == cat) ∘ (fun g : GeoRec =>
      ({ geometry := sp g.geometry (1/10000), speed_category := g.speed_category,
         color := g.color } : GeoRec))) = fun g : GeoRec => g.speed_category == cat := rfl
  rw [hpred,
    filter_flatMap_category cat _ (mergeBlock uu polygons) (List.nodup_dedup _)
      (List.mem_dedup.mpr hcat) (fun c _ r hr => mergeBlock_category uu polygons c r hr)]
  rw [mergeBlock]
  have hlen : 0 < (polygons.filter (fun p => p.speed_category == cat)).length := by
    rw [List.mem_map] at hcat
    obtain ⟨p, hp, hpc⟩ := hcat
    exact List.length_pos.mpr (List.ne_nil_of_mem
      (List.mem_filter.mpr ⟨hp, by simp [hpc]⟩))
  rw [if_pos hlen, huu, List.map_map]
  rfl


/-- Witness for C6: two disjoint same-category regions whose union is a
two-part multi-polygon produce exactly two records tagged "X". -/
theorem merger_expands_multipolygon_witness :
    (create_geojson uuTwoParts spKeep twoRegionPolys).filter
        (fun g => g.speed_category == "X")
      = ([⟨[(0, 0)], []⟩, ⟨[(2, 2)], []⟩] : List ShapelyPolygon).map (fun poly =>
          ({ geometry := spKeep (Geometry.polygon poly) (1/10000), speed_category := "X",
             color := mask_category_to_hex "X" } : GeoRec)) :=
  merger_expands_multipolygon uuTwoParts spKeep twoRegionPolys "X"
    [⟨[(0, 0)], []⟩, ⟨[(2, 2)], []⟩] (by decide) rfl

end ProcessExtractedMap

namespace ProcessExtractedMap

/-- Evaluation of the concrete square-contour vectorizer run. -/
theorem masks_to_polygons_square :
    masks_to_polygons fcSquare aLForty aPId ivTrue [("0-9 Mbps", [[true]])] 10 10
      = [recSquare] := by
  have hpc : processContour aLForty aPId ivTrue 10 10 "0-9 Mbps"
      [(0, 0), (10, 0), (10, 10), (0, 10)] = some recSquare := by
    rw [processContour]
    rw [if_neg (by norm_num [contourArea, polyArea, shoelace, shoelaceAux, cross])]
    dsimp only [aPId]
    rw [if_pos (by norm_num)]
    have hcoords : ([(0, 0), (10, 0), (10, 10), (0, 10)] : Contour).map
        (fun q => ((q.1 : Rat) / (10 : Nat), (q.2 : Rat) / (10 : Nat)))
        = [((0 : Rat), (0 : Rat)), (1, 0), (1, 1), (0, 1)] := by
      simp only [List.map_cons, List.map_nil]
      norm_num
    rw [hcoords]
    rw [if_pos ⟨rfl, by norm_num [polyArea, shoelace, shoelaceAux, cross]⟩]
    rfl
  rw [masks_to_polygons]
  simp only [List.flatMap_cons, List.flatMap_nil, List.append_nil, fcSquare,
    List.filterMap_cons, hpc]
  simp

/-- C9 counterexample: the script's own default configuration supplies
display color "#CC0000" for category "0-9 Mbps", yet the record emitted
for that category carries the hard-coded color "#FF0000": the output
color does not equal the supplied display color. -/
theorem output_color_ignores_display_cex :
    (default_color_config.map (fun c => (c.name, c.hex))).head?
        = some ("0-9 Mbps", "#CC0000")
    ∧ (masks_to_polygons fcSquare aLForty aPId ivTrue
          [("0-9 Mbps", [[true]])] 10 10).map (fun p => p.color) = ["#FF0000"]
    ∧ ("#FF0000" : String) ≠ "#CC0000" := by
  refine ⟨rfl, ?_, by decide⟩
  rw [masks_to_polygons_square]
  rfl

/-- C9 amended: the color field of every record emitted by the
vectorizer and by the merger equals `mask_category_to_hex` of the
record's category (the hard-coded table, defaulting to "#FFFFFF"),
regardless of the display colors supplied in the configuration. -/
theorem output_color_hardcoded :
    (∀ (fc : Mask → List Contour) (aL : Contour → Rat) (aP : Contour → Rat → Contour)
        (iv : List (Rat × Rat) → Bool) (masks : List (String × Mask)) (w h : Nat)
        (p : PolyRec),
        p ∈ masks_to_polygons fc aL aP iv masks w h →
        p.color = mask_category_to_hex p.speed_category)
    ∧ (∀ (uu : List ShapelyPolygon → Geometry) (sp : Geometry → Rat → Geometry)
        (polygons : List PolyRec) (g : GeoRec),
        g ∈ create_geojson uu sp polygons →
        g.color = mask_category_to_hex g.speed_category) := by
  constructor
  · intro fc aL aP iv masks w h p hp
    rw [masks_to_polygons, List.mem_flatMap] at hp
    obtain ⟨cm, _, hp⟩ := hp
    rw [List.mem_filterMap] at hp
    obtain ⟨c, _, hsome⟩ := hp
    obtain ⟨_, _, _, _, _, hcat, hcol, _⟩ := processContour_some _ _ _ _ _ _ _ _ hsome
    rw [hcol, hcat]
  · intro uu sp polygons g hg
    rw [create_geojson_eq, List.mem_map] at hg
    obtain ⟨g', hg', rfl⟩ := hg
    rw [List.mem_flatMap] at hg'
    obtain ⟨c, _, hg'⟩ := hg'
    have hcat := mergeBlock_category uu polygons c g' hg'
    have hcol : g'.color = mask_category_to_hex c := by
      rw [mergeBlock] at hg'
      split at hg'
      · split at hg'
        · rw [List.mem_singleton] at hg'
          subst hg'
          rfl
        · rw [List.mem_map] at hg'
          obtain ⟨poly, _, rfl⟩ := hg'
          rfl
      · simp at hg'
    show g'.color = mask_category_to_hex g'.speed_category
    rw [hcol, hcat]

/-- Witness for the amended C9 at a concrete emitted record. -/
theorem output_color_hardcoded_witness :
    recSquare.color = mask_category_to_hex recSquare.speed_category :=
  output_color_hardcoded.1 fcSquare aLForty aPId ivTrue [("0-9 Mbps", [[true]])] 10 10
    recSquare (by rw [masks_to_polygons_square]; exact List.mem_singleton.mpr rfl)

end ProcessExtractedMap

namespace ProcessExtractedMap


/-- C7 counterexample: when the whole run yields zero polygons, `main`
returns early after printing, producing no feature collection at all
(`none`); the caller receives no explicit empty feature collection. -/
theorem empty_run_produces_no_feature_collection_cex :
    main_pipeline fcNone aLForty aPId ivTrue uuEmpty spKeep
        [[⟨0, 0, 0⟩]] default_color_config 50 = none := by
  rw [main_pipeline]
  have h : ∀ (masks : List (String × Mask)) (w hh : Nat),
      masks_to_polygons fcNone aLForty aPId ivTrue masks w hh = [] := by
    intro masks w hh
    rw [masks_to_polygons, List.flatMap_eq_nil_iff]
    intro x _
    rfl
  rw [h]
  rfl

/-- C7 amended: a category whose mask has no contours yields zero
polygons and the run completes without error; but when the entire run
yields zero polygons, `main` returns early and produces no feature
collection at all (no explicit empty feature collection is emitted; the
only signal is the printed message of the early return). -/
theorem empty_result_not_error :
    (∀ (fc : Mask → List Contour) (aL : Contour → Rat) (aP : Contour → Rat → Contour)
        (iv : List (Rat × Rat) → Bool) (cat : String) (mask : Mask) (w h : Nat),
        fc mask = [] → masks_to_polygons fc aL aP iv [(cat, mask)] w h = [])
    ∧ (∀ (fc : Mask → List Contour) (aL : Contour → Rat) (aP : Contour → Rat → Contour)
        (iv : List (Rat × Rat) → Bool) (uu : List ShapelyPolygon → Geometry)
        (sp : Geometry → Rat → Geometry) (image : RasterImage)
        (config : List CategorySpec) (tol : Int),
        masks_to_polygons fc aL aP iv (detect_broadband_regions image config tol)
          (image.headD []).length image.length = [] →
        main_pipeline fc aL aP iv uu sp image config tol = none) := by
  constructor
  · intro fc aL aP iv cat mask w h hfc
    rw [masks_to_polygons, List.flatMap_eq_nil_iff]
    intro x hx
    rw [List.mem_singleton] at hx
    subst hx
    rw [hfc]
    rfl
  · intro fc aL aP iv uu sp image config tol h
    rw [main_pipeline]
    rw [h]
    rfl

/-- Witness for the amended C7: a mask without contours yields zero
polygons, and a zero-polygon run yields no feature collection. -/
theorem empty_result_not_error_witness :
    masks_to_polygons fcNone aLForty aPId ivTrue [("X", [[true]])] 3 3 = []
    ∧ main_pipeline fcNone aLForty aPId ivTrue uuEmpty spKeep
        [[⟨0, 0, 0⟩]] default_color_config 50 = none := by
  constructor
  · exact empty_result_not_error.1 fcNone aLForty aPId ivTrue "X" [[true]] 3 3 rfl
  · apply empty_result_not_error.2 fcNone aLForty aPId ivTrue uuEmpty spKeep
      [[⟨0, 0, 0⟩]] default_color_config 50
    rw [masks_to_polygons, List.flatMap_eq_nil_iff]
    intro x _
    rfl

end ProcessExtractedMap
